import Mathlib

/-!
Verification development for the CartpandaFront-end funnel builder.

The development shallowly embeds the core of the repository:

* `src/src/utils/validation.ts` — `validateFunnel`, `isValidConnection`;
* `src/enhanced - code/utils/validation.ts` — the enhanced `validateFunnel`
  variant (embedded here as `validateFunnelEnhanced`);
* `src/src/hooks/useFunnelStore.ts` — the graph store: node/edge state,
  auto-increment label counters, the history-recording effect, and the
  operations `addNode`, `onConnect`, `deleteNode`, `deleteEdge`,
  `clearCanvas`, `loadState`, `undo`, `redo`.

Modelling conventions:

* The source builds `Map`s from edge lists and only ever reads the length of
  the per-node bucket; buckets are embedded as `List.filter` over the edge
  list, which yields exactly the same edges in the same order.
* `nanoid()` produces a fresh opaque unique id on every call; it is embedded
  as an injective function `genId` of a creation counter `nextId` carried by
  the store state.
* The React state/effect machinery is embedded explicitly: the effect of
  `useFunnelStore.ts` lines 60-81 is `effectStep`; React re-runs the effect
  whenever one of its dependencies `[nodes, edges, historyIndex]` changed,
  and `effectStep` can only change `historyIndex`, so a committed state
  update is followed by `settle`, which iterates `effectStep` until the
  history index stops changing (it is monotone and capped at 49, so 60 fuel
  suffices).
* The React Flow library function `addEdge` appends the new edge unless an
  edge with the same endpoints already exists (`addEdgeFlow` below); the
  edge id it generates is `xy-edge__` + source + `-` + target (handles are
  null here).
-/

namespace Funnel

/-- Closed enumeration of funnel page types (types/index.ts). -/
inductive FunnelNodeType where
  | salesPage
  | orderPage
  | upsell
  | downsell
  | thankYou
deriving DecidableEq, Repr

/-- 2D canvas position; irrelevant to validation. -/
structure Pos where
  x : Int
  y : Int
deriving DecidableEq, Repr

/-- Data stored in each funnel node (types/index.ts, FunnelNodeData). -/
structure FunnelNodeData where
  label : String
  nodeType : FunnelNodeType
  buttonLabel : String
  index : Option Nat
deriving DecidableEq, Repr

/-- A funnel node (React Flow node with FunnelNodeData). -/
structure FunnelNode where
  id : String
  type : FunnelNodeType
  position : Pos
  data : FunnelNodeData
deriving DecidableEq, Repr

/-- A directed edge; presentational fields (smoothstep type, animation,
marker) carry no semantic content and are omitted. -/
structure FunnelEdge where
  id : String
  source : String
  target : String
deriving DecidableEq, Repr

/-- Issue severity. -/
inductive IssueType where
  | error
  | warning
deriving DecidableEq, Repr

/-- A validation issue (types/index.ts, ValidationIssue). -/
structure ValidationIssue where
  id : String
  type : IssueType
  message : String
  nodeId : Option String
deriving DecidableEq, Repr

/-- Edges leaving node `nid` (the `outgoingEdges` map bucket of
validation.ts lines 21-27, read only through its length). -/
def outgoingOf (edges : List FunnelEdge) (nid : String) : List FunnelEdge :=
  edges.filter (fun e => e.source == nid)

/-- Edges entering node `nid` (the `incomingEdges` map bucket of
validation.ts lines 28-33). -/
def incomingOf (edges : List FunnelEdge) (nid : String) : List FunnelEdge :=
  edges.filter (fun e => e.target == nid)

/-- Issues produced for one node by the per-node pass of `validateFunnel`
(validation.ts lines 35-78): rule 1 (thank-you outgoing), rule 2 (sales page
outgoing count), rule 3 (orphan), pushed in that order. `total` is the
length of the full node list. -/
def nodeIssues (total : Nat) (edges : List FunnelEdge) (n : FunnelNode) :
    List ValidationIssue :=
  (if n.data.nodeType == .thankYou && decide (0 < (outgoingOf edges n.id).length) then
    [{ id := "thank-you-outgoing-" ++ n.id, type := .error,
       message := "\"" ++ n.data.label ++ "\" should not have outgoing connections",
       nodeId := some n.id }]
    else [])
  ++ (if n.data.nodeType == .salesPage then
      (if (outgoingOf edges n.id).length == 0 then
        [{ id := "sales-no-outgoing-" ++ n.id, type := .warning,
           message := "\"" ++ n.data.label ++ "\" should connect to an Order Page",
           nodeId := some n.id }]
       else if decide (1 < (outgoingOf edges n.id).length) then
        [{ id := "sales-multiple-outgoing-" ++ n.id, type := .warning,
           message := "\"" ++ n.data.label ++ "\" has multiple outgoing connections (typically should have one)",
           nodeId := some n.id }]
       else [])
      else [])
  ++ (if (outgoingOf edges n.id).length == 0 && (incomingOf edges n.id).length == 0
        && decide (1 < total) then
        [{ id := "orphan-" ++ n.id, type := .warning,
           message := "\"" ++ n.data.label ++ "\" is not connected to any other node",
           nodeId := some n.id }]
      else [])

/-- The primary validation engine (src/src/utils/validation.ts lines 14-81):
a single pass over the nodes, emitting the per-node issues in node order. -/
def validateFunnel (nodes : List FunnelNode) (edges : List FunnelEdge) :
    List ValidationIssue :=
  nodes.flatMap (nodeIssues nodes.length edges)

/-- Connection legality check (src/src/utils/validation.ts lines 87-115).
Arguments are optional because callers pass the result of a find by id. -/
def isValidConnection (sourceNode targetNode : Option FunnelNode)
    (existingEdges : List FunnelEdge) : Option String :=
  match sourceNode, targetNode with
  | some src, some tgt =>
    if src.id == tgt.id then
      some "Cannot connect a node to itself"
    else if (existingEdges.find? (fun e => e.source == src.id && e.target == tgt.id)).isSome then
      some "Connection already exists"
    else if src.data.nodeType == .thankYou then
      some "Thank You pages cannot have outgoing connections"
    else
      none
  | _, _ => some "Invalid nodes"

/-- Node data of the enhanced code variant (enhanced - code/types/index.ts,
NodeData; the page type lives in the field named `type`). -/
structure ENodeData where
  label : String
  type : FunnelNodeType
deriving DecidableEq, Repr

/-- Node shape of the enhanced code variant. -/
structure ENode where
  id : String
  data : ENodeData
deriving DecidableEq, Repr

/-- Validation issue of the enhanced code variant: no issue id field. -/
structure EIssue where
  nodeId : Option String
  type : IssueType
  message : String
deriving DecidableEq, Repr

/-- The graph-level message of the multiple-starting-points rule. -/
def multiStartMsg : String :=
  "Multiple starting points detected. Consider having only one Sales Page as entry."

/-- Orphan pass of the enhanced validateFunnel (lines 11-25): nodes whose id
appears in no edge, when the graph has more than one node. -/
def evOrphan (nodes : List ENode) (edges : List FunnelEdge) : List EIssue :=
  (nodes.filter (fun n =>
      !(edges.any (fun e => e.source == n.id || e.target == n.id))
        && decide (1 < nodes.length))).map
    (fun n => { nodeId := some n.id, type := .warning,
                message := "\"" ++ n.data.label ++ "\" is not connected to any other nodes" })

/-- Thank-you pass of the enhanced validateFunnel (lines 27-40). -/
def evThankYou (nodes : List ENode) (edges : List FunnelEdge) : List EIssue :=
  nodes.flatMap (fun n =>
    if n.data.type == .thankYou
        && decide (0 < (edges.filter (fun e => e.source == n.id)).length) then
      [{ nodeId := some n.id, type := .error,
         message := "\"" ++ n.data.label ++ "\" should not have outgoing connections (it\x27s a final page)" }]
    else [])

/-- Sales-page pass of the enhanced validateFunnel (lines 42-61). -/
def evSales (nodes : List ENode) (edges : List FunnelEdge) : List EIssue :=
  nodes.flatMap (fun n =>
    if n.data.type == .salesPage then
      (if (edges.filter (fun e => e.source == n.id)).length == 0 then
        [{ nodeId := some n.id, type := .warning,
           message := "\"" ++ n.data.label ++ "\" should connect to an Order Page" }]
       else if decide (1 < (edges.filter (fun e => e.source == n.id)).length) then
        [{ nodeId := some n.id, type := .warning,
           message := "\"" ++ n.data.label ++ "\" should have only one outgoing connection" }]
       else [])
    else [])

/-- Multiple-starting-points pass of the enhanced validateFunnel (lines
63-76): when more than one sales page exists, one warning per sales page
with zero incoming edges, each tagged with that sales page id. -/
def evMultiStart (nodes : List ENode) (edges : List FunnelEdge) : List EIssue :=
  let salesPages := nodes.filter (fun n => n.data.type == .salesPage)
  if decide (1 < salesPages.length) then
    salesPages.flatMap (fun sp =>
      if (edges.filter (fun e => e.target == sp.id)).length == 0 then
        [{ nodeId := some sp.id, type := .warning, message := multiStartMsg }]
      else [])
  else []

/-- The enhanced validateFunnel (enhanced - code/utils/validation.ts lines
4-79): early return on an empty node list, then the four passes push issues
in order orphan, thank-you, sales-page, multiple-starting-points. -/
def validateFunnelEnhanced (nodes : List ENode) (edges : List FunnelEdge) :
    List EIssue :=
  if nodes.length == 0 then []
  else evOrphan nodes edges ++ evThankYou nodes edges
    ++ evSales nodes edges ++ evMultiStart nodes edges

/-- A graph snapshot, as recorded by the history effect (FunnelState of
types/index.ts, without the optional viewport). -/
structure FunnelState where
  nodes : List FunnelNode
  edges : List FunnelEdge
deriving DecidableEq, Repr

/-- Auto-increment label counters (useFunnelStore.ts, NodeCounters). -/
structure Counters where
  upsell : Nat
  downsell : Nat
deriving DecidableEq, Repr

/-- The whole state owned by useFunnelStore: the graph, the label counters,
the id source, and the undo/redo history with its cursor and the one-shot
suppression flag. `historyIndex` starts at -1, as in the source. -/
structure Store where
  nodes : List FunnelNode
  edges : List FunnelEdge
  counters : Counters
  nextId : Nat
  history : List FunnelState
  historyIndex : Int
  isUndoRedo : Bool
deriving DecidableEq, Repr

/-- Fresh unique id generator: model of `nanoid()` as an injective function
of the creation counter. -/
def genId (k : Nat) : String :=
  String.mk ('n' :: List.replicate k 'x')

/-- The graph part of a store state. -/
def graphOf (s : Store) : FunnelState :=
  { nodes := s.nodes, edges := s.edges }

/-- One run of the persistence/history effect (useFunnelStore.ts lines
60-81): when the graph is non-empty, record a snapshot unless the one-shot
undo/redo flag is set — truncate after the cursor, append, evict the oldest
entry past capacity 50, advance the cursor capped at 49 — and clear the
flag. An empty graph skips the whole body, including the flag reset. -/
def effectStep (s : Store) : Store :=
  if s.nodes ≠ [] ∨ s.edges ≠ [] then
    if s.isUndoRedo then
      { s with isUndoRedo := false }
    else
      let pushed := s.history.take (s.historyIndex + 1).toNat ++ [graphOf s]
      let newHistory := if 50 < pushed.length then pushed.drop 1 else pushed
      { s with history := newHistory,
               historyIndex := min (s.historyIndex + 1) 49,
               isUndoRedo := false }
  else s

/-- Iterate the effect while its own run changed the `historyIndex`
dependency (the only dependency `effectStep` can change), with fuel. -/
def settleAux : Nat → Store → Store
  | 0, s => s
  | fuel + 1, s =>
      let s' := effectStep s
      if s'.historyIndex = s.historyIndex then s' else settleAux fuel s'

/-- Run the effect after a committed state update until it stops re-running.
The history index is monotone and capped at 49, so 60 fuel always covers
the full cascade. -/
def settle (s : Store) : Store :=
  settleAux 60 s

/-- Per-type default labels (constants/nodeTemplates.ts, DEFAULT_LABELS). -/
def defaultLabel : FunnelNodeType → String
  | .salesPage => "Sales Page"
  | .orderPage => "Order Page"
  | .upsell => "Upsell"
  | .downsell => "Downsell"
  | .thankYou => "Thank You"

/-- Per-type default button labels (DEFAULT_BUTTON_LABELS). -/
def defaultButtonLabel : FunnelNodeType → String
  | .salesPage => "Buy Now"
  | .orderPage => "Complete Order"
  | .upsell => "Yes, Add This!"
  | .downsell => "Get This Instead"
  | .thankYou => "View Order"

/-- Result of generateLabel: label, optional index, updated counters. -/
structure GenLabel where
  label : String
  index : Option Nat
  counters : Counters
deriving DecidableEq, Repr

/-- Label generation with auto-increment for upsell and downsell
(useFunnelStore.ts lines 84-94): the counter is bumped first and the bumped
value is used in the label and stored as the node index. -/
def generateLabel (t : FunnelNodeType) (c : Counters) : GenLabel :=
  match t with
  | .upsell =>
      { label := "Upsell " ++ toString (c.upsell + 1),
        index := some (c.upsell + 1),
        counters := { c with upsell := c.upsell + 1 } }
  | .downsell =>
      { label := "Downsell " ++ toString (c.downsell + 1),
        index := some (c.downsell + 1),
        counters := { c with downsell := c.downsell + 1 } }
  | t => { label := defaultLabel t, index := none, counters := c }

/-- addNode (useFunnelStore.ts lines 97-114): build the node with a fresh
id, generated label and default button label, append it, then the effect
records the new state. -/
def addNode (t : FunnelNodeType) (pos : Pos) (s : Store) : Store :=
  let gen := generateLabel t s.counters
  let newNode : FunnelNode :=
    { id := genId s.nextId, type := t, position := pos,
      data := { label := gen.label, nodeType := t,
                buttonLabel := defaultButtonLabel t, index := gen.index } }
  settle { s with nodes := s.nodes ++ [newNode],
                  counters := gen.counters, nextId := s.nextId + 1 }

/-- A candidate connection (React Flow Connection; handles are null). -/
structure Connection where
  source : String
  target : String
deriving DecidableEq, Repr

/-- The edge React Flow addEdge builds from a connection: generated id from
the endpoints (null handles contribute nothing). -/
def mkFlowEdge (c : Connection) : FunnelEdge :=
  { id := "xy-edge__" ++ c.source ++ "-" ++ c.target,
    source := c.source, target := c.target }

/-- React Flow addEdge: append unless an edge with the same endpoints
already exists. -/
def addEdgeFlow (e : FunnelEdge) (eds : List FunnelEdge) : List FunnelEdge :=
  if eds.any (fun x => x.source == e.source && x.target == e.target) then eds
  else eds ++ [e]

/-- onConnect (useFunnelStore.ts lines 117-134). The second component is
the JS return value of the handler: both paths end without returning a
value, so it is always `none` — on rejection the reason goes only to
`console.warn` and no state is touched (no setState, so no effect run);
on acceptance the edge is appended and the effect records. -/
def onConnect (c : Connection) (s : Store) : Store × Option String :=
  let sourceNode := s.nodes.find? (fun n => n.id == c.source)
  let targetNode := s.nodes.find? (fun n => n.id == c.target)
  match isValidConnection sourceNode targetNode s.edges with
  | some _ => (s, none)
  | none => (settle { s with edges := addEdgeFlow (mkFlowEdge c) s.edges }, none)

/-- deleteNode (useFunnelStore.ts lines 140-143): drop the node and every
incident edge; both setters always run, so the effect runs afterwards. -/
def deleteNode (nid : String) (s : Store) : Store :=
  settle { s with nodes := s.nodes.filter (fun n => !(n.id == nid)),
                  edges := s.edges.filter (fun e => !(e.source == nid) && !(e.target == nid)) }

/-- deleteEdge (useFunnelStore.ts lines 146-148). -/
def deleteEdge (eid : String) (s : Store) : Store :=
  settle { s with edges := s.edges.filter (fun e => !(e.id == eid)) }

/-- clearCanvas (useFunnelStore.ts lines 151-155): empty the graph and
reset the counters. The effect runs on the now-empty graph and records
nothing. -/
def clearCanvas (s : Store) : Store :=
  settle { s with nodes := [], edges := [], counters := { upsell := 0, downsell := 0 } }

/-- Counter recomputation on load (useFunnelStore.ts lines 163-171): reset,
then fold the maximum stored index per auto-incrementing type; a zero or
missing index is falsy and ignored. -/
def recomputeCounters (nodes : List FunnelNode) : Counters :=
  nodes.foldl (fun c n =>
    match n.data.nodeType, n.data.index with
    | .upsell, some i => if i ≠ 0 then { c with upsell := max c.upsell i } else c
    | .downsell, some i => if i ≠ 0 then { c with downsell := max c.downsell i } else c
    | _, _ => c) { upsell := 0, downsell := 0 }

/-- loadState (useFunnelStore.ts lines 158-172): wholesale replacement plus
counter recomputation; the effect then records the loaded state. -/
def loadState (st : FunnelState) (s : Store) : Store :=
  settle { s with nodes := st.nodes, edges := st.edges,
                  counters := recomputeCounters st.nodes }

/-- undo (useFunnelStore.ts lines 180-188): only when the cursor is
positive; set the one-shot flag, load the previous snapshot, decrement the
cursor. The effect run triggered by the state change is suppressed by the
flag. -/
def undo (s : Store) : Store :=
  if 0 < s.historyIndex then
    let prevState := s.history.getD (s.historyIndex - 1).toNat { nodes := [], edges := [] }
    settle { s with nodes := prevState.nodes, edges := prevState.edges,
                    historyIndex := s.historyIndex - 1, isUndoRedo := true }
  else s

/-- redo (useFunnelStore.ts lines 191-199): symmetric to undo. -/
def redo (s : Store) : Store :=
  if s.historyIndex < (s.history.length : Int) - 1 then
    let nextState := s.history.getD (s.historyIndex + 1).toNat { nodes := [], edges := [] }
    settle { s with nodes := nextState.nodes, edges := nextState.edges,
                    historyIndex := s.historyIndex + 1, isUndoRedo := true }
  else s

/-- canUndo (line 202). -/
def canUndo (s : Store) : Bool :=
  decide (0 < s.historyIndex)

/-- canRedo (line 203). -/
def canRedo (s : Store) : Bool :=
  decide (s.historyIndex < (s.history.length : Int) - 1)

/-- The store state on a fresh mount with no saved data: empty graph, zero
counters, empty history, cursor -1. -/
def initialStore : Store :=
  { nodes := [], edges := [], counters := { upsell := 0, downsell := 0 },
    nextId := 0, history := [], historyIndex := -1, isUndoRedo := false }

/-- One user-level mutation of the store surface (undo/redo kept apart). -/
inductive Mutation where
  | add (t : FunnelNodeType) (pos : Pos)
  | connect (c : Connection)
  | delNode (id : String)
  | delEdge (id : String)
  | clearAll
deriving DecidableEq, Repr

/-- Apply one mutation. -/
def applyMutation : Mutation → Store → Store
  | .add t pos, s => addNode t pos s
  | .connect c, s => (onConnect c s).1
  | .delNode i, s => deleteNode i s
  | .delEdge i, s => deleteEdge i s
  | .clearAll, s => clearCanvas s

/-- Apply a sequence of mutations, oldest first. -/
def applyMutations (ms : List Mutation) (s : Store) : Store :=
  ms.foldl (fun acc m => applyMutation m acc) s

/-- A mutation records a history snapshot when applied to `s`: the effect
body requires a non-empty resulting graph, a rejected connect never reaches
the setters, and clearCanvas always empties the graph. -/
def Records : Mutation → Store → Prop
  | .add _ _, _ => True
  | .connect c, s =>
      isValidConnection (s.nodes.find? (fun n => n.id == c.source))
        (s.nodes.find? (fun n => n.id == c.target)) s.edges = none
  | .delNode i, s =>
      s.nodes.filter (fun n => !(n.id == i)) ≠ [] ∨
        s.edges.filter (fun e => !(e.source == i) && !(e.target == i)) ≠ []
  | .delEdge i, s =>
      s.nodes ≠ [] ∨ s.edges.filter (fun e => !(e.id == i)) ≠ []
  | .clearAll, _ => False

/-- A store operation of the full mutation surface: one of the five user
mutations, or a wholesale loadState/import (kept apart from `Mutation`
because the data-model invariants deliberately exclude imports, which may
bypass the legality checker). -/
inductive StoreOp where
  | mutate (m : Mutation)
  | load (st : FunnelState)
deriving DecidableEq, Repr

/-- Apply one store operation. -/
def applyOp : StoreOp → Store → Store
  | .mutate m, s => applyMutation m s
  | .load st, s => loadState st s

/-- Apply a sequence of store operations, oldest first. -/
def applyOps (ops : List StoreOp) (s : Store) : Store :=
  ops.foldl (fun acc op => applyOp op acc) s

/-- A store operation records a history snapshot when applied to `s`: a
load records exactly when its payload graph is non-empty (the effect body
is guarded on a non-empty graph). -/
def RecordsOp : StoreOp → Store → Prop
  | .mutate m, s => Records m s
  | .load st, _ => st.nodes ≠ [] ∨ st.edges ≠ []

/-- A whole run of mutations records at every step. -/
def RecAlong : List Mutation → Store → Prop
  | [], _ => True
  | m :: ms, s => Records m s ∧ RecAlong ms (applyMutation m s)

/-- The graph snapshots produced by a run of mutations, oldest first. -/
def graphsAlong : List Mutation → Store → List FunnelState
  | [], _ => []
  | m :: ms, s => graphOf (applyMutation m s) :: graphsAlong ms (applyMutation m s)

/-- The history snapshot at the cursor. -/
def cursorSnap (s : Store) : FunnelState :=
  s.history.getD s.historyIndex.toNat { nodes := [], edges := [] }

/-- History-bookkeeping invariant of mutation-reachable settled states: the
suppression flag is down, and the history is either still empty with cursor
-1 (nothing recorded yet) or pinned at capacity 50 with the cursor at 49. -/
def MInv (s : Store) : Prop :=
  s.isUndoRedo = false ∧
    ((s.history = [] ∧ s.historyIndex = -1) ∨
      (s.history.length = 50 ∧ s.historyIndex = 49))

/-- Every live node id was produced by the id generator below the current
counter value. -/
def IdsOk (s : Store) : Prop :=
  (∀ n ∈ s.nodes, ∃ k, k < s.nextId ∧ n.id = genId k) ∧
    s.nodes.Pairwise (fun a b => a.id ≠ b.id)

/-- Every edge source refers to a live node. -/
def EdgeLive (s : Store) : Prop :=
  ∀ e ∈ s.edges, ∃ n ∈ s.nodes, n.id = e.source

/-- The three edge-set invariants of the data model: no self-loop, no
duplicate (source, target) pair, no edge out of a thank-you node. -/
def EdgeOk (s : Store) : Prop :=
  (∀ e ∈ s.edges, e.source ≠ e.target) ∧
    s.edges.Pairwise (fun a b => ¬(a.source = b.source ∧ a.target = b.target)) ∧
    (∀ e ∈ s.edges, ∀ n ∈ s.nodes, n.id = e.source → n.data.nodeType ≠ .thankYou)

/-- The combined store invariant used for the reachability proof. -/
def StoreOk (s : Store) : Prop :=
  IdsOk s ∧ EdgeLive s ∧ EdgeOk s

/-- Fixture: a sales page with default labels. -/
def nodeS1 : FunnelNode :=
  { id := "s1", type := .salesPage, position := { x := 0, y := 0 },
    data := { label := "Sales Page", nodeType := .salesPage,
              buttonLabel := "Buy Now", index := none } }

/-- Fixture: an order page with default labels. -/
def nodeO1 : FunnelNode :=
  { id := "o1", type := .orderPage, position := { x := 0, y := 0 },
    data := { label := "Order Page", nodeType := .orderPage,
              buttonLabel := "Complete Order", index := none } }

/-- Fixture: a thank-you page with default labels. -/
def nodeT1 : FunnelNode :=
  { id := "t1", type := .thankYou, position := { x := 0, y := 0 },
    data := { label := "Thank You", nodeType := .thankYou,
              buttonLabel := "View Order", index := none } }

/-- Fixture: the linear funnel S1, O1, T1 plus the illegal back edge. -/
def c6edges : List FunnelEdge :=
  [{ id := "e1", source := "s1", target := "o1" },
   { id := "e2", source := "o1", target := "t1" },
   { id := "e3", source := "t1", target := "s1" }]

/-- Fixture: two enhanced-variant sales pages. -/
def c1nodesE : List ENode :=
  [{ id := "s1", data := { label := "Sales Page", type := .salesPage } },
   { id := "s2", data := { label := "Sales Page", type := .salesPage } }]

/-- Fixture: two primary-variant sales pages. -/
def c1nodesM : List FunnelNode :=
  [nodeS1, { nodeS1 with id := "s2" }]

/-- Fixture: add a sales page and an order page. -/
def mutAddTwo : List Mutation :=
  [.add .salesPage { x := 0, y := 0 }, .add .orderPage { x := 100, y := 0 }]

/-- Fixture: the connection between the two nodes added by `mutAddTwo`. -/
def conn0 : Connection :=
  { source := genId 0, target := genId 1 }

/-- Fixture: the store after adding the two nodes. -/
def store2 : Store :=
  applyMutations mutAddTwo initialStore

/-- Fixture: the store after also connecting them. -/
def store3 : Store :=
  applyMutation (.connect conn0) store2

theorem genId_inj {a b : Nat} (h : genId a = genId b) : a = b := by
  have h2 := congrArg (fun s => s.data.length) h
  simp [genId] at h2
  exact h2

theorem msgNe (label suf target : String) (h1 : suf.data ≠ [])
    (h2 : suf.data.getLast? ≠ target.data.getLast?) :
    ("\"" ++ label ++ suf) ≠ target := by
  intro h
  apply h2
  have hd := congrArg String.data h
  simp only [String.data_append] at hd
  have : target.data.getLast? = suf.data.getLast? := by
    rw [← hd]
    exact List.getLast?_append_of_ne_nil _ h1
  exact this.symm

theorem nodeIssues_nodeId (total : Nat) (edges : List FunnelEdge) (n : FunnelNode) :
    ∀ i ∈ nodeIssues total edges n, i.nodeId = some n.id := by
  intro i hi
  simp only [nodeIssues, List.mem_append] at hi
  rcases hi with (hi | hi) | hi <;> split_ifs at hi <;> simp_all

/-- C9: validation totally computes an issue list for every node list and
every edge list — including edge lists with dangling node references — and
every emitted issue carries the id of a node present in the node list, so
dangling edges never produce an issue of their own. -/
theorem claim_C9_issues_name_live_nodes :
    ∀ (nodes : List FunnelNode) (edges : List FunnelEdge),
      ∀ i ∈ validateFunnel nodes edges, ∃ n ∈ nodes, i.nodeId = some n.id := by
  intro nodes edges i hi
  rcases List.mem_flatMap.mp hi with ⟨n, hn, hin⟩
  exact ⟨n, hn, nodeIssues_nodeId nodes.length edges n i hin⟩

theorem claim_C9_witness :
    ∃ n ∈ [nodeS1],
      ({ id := "sales-no-outgoing-s1", type := .warning,
         message := "\"Sales Page\" should connect to an Order Page",
         nodeId := some "s1" } : ValidationIssue).nodeId = some n.id :=
  claim_C9_issues_name_live_nodes [nodeS1]
    [{ id := "d", source := "ghost1", target := "ghost2" }] _ (by decide)

/-- C5: the legality check returns a non-null reason exactly when one of the
four conditions holds, trying them in the fixed order invalid-nodes,
self-loop, duplicate pair, thank-you source, the first failing check
determining the reason; in particular a self-loop on a thank-you node gets
the self-loop reason. -/
theorem claim_C5_check_order :
    ∀ (osrc otgt : Option FunnelNode) (es : List FunnelEdge),
      (isValidConnection osrc otgt es = none ↔
        ∃ s t, osrc = some s ∧ otgt = some t ∧ s.id ≠ t.id ∧
          (∀ e ∈ es, ¬(e.source = s.id ∧ e.target = t.id)) ∧
          s.data.nodeType ≠ .thankYou)
      ∧ (osrc = none ∨ otgt = none → isValidConnection osrc otgt es = some "Invalid nodes")
      ∧ (∀ s t, osrc = some s → otgt = some t → s.id = t.id →
          isValidConnection osrc otgt es = some "Cannot connect a node to itself")
      ∧ (∀ s t, osrc = some s → otgt = some t → s.id ≠ t.id →
          (∃ e ∈ es, e.source = s.id ∧ e.target = t.id) →
          isValidConnection osrc otgt es = some "Connection already exists")
      ∧ (∀ s t, osrc = some s → otgt = some t → s.id ≠ t.id →
          (∀ e ∈ es, ¬(e.source = s.id ∧ e.target = t.id)) →
          s.data.nodeType = .thankYou →
          isValidConnection osrc otgt es = some "Thank You pages cannot have outgoing connections") := by
  intro osrc otgt es
  refine ⟨?_, ?_, ?_, ?_, ?_⟩
  · constructor
    · intro h
      match osrc, otgt with
      | none, none => simp [isValidConnection] at h
      | none, some t => simp [isValidConnection] at h
      | some s, none => simp [isValidConnection] at h
      | some s, some t =>
        refine ⟨s, t, rfl, rfl, ?_⟩
        by_cases h1 : s.id = t.id
        · simp [isValidConnection, h1] at h
        by_cases h2 : (es.find? (fun e => e.source == s.id && e.target == t.id)).isSome
        · simp [isValidConnection, h1, h2] at h
        by_cases h3 : s.data.nodeType = .thankYou
        · simp [isValidConnection, h1, h2, h3] at h
        refine ⟨h1, ?_, h3⟩
        intro e he hc
        apply h2
        exact List.find?_isSome.mpr ⟨e, he, by simp [hc.1, hc.2]⟩
    · rintro ⟨s, t, rfl, rfl, h1, h2, h3⟩
      have hf : es.find? (fun e => e.source == s.id && e.target == t.id) = none := by
        apply List.find?_eq_none.mpr
        intro e he
        simp only [Bool.and_eq_true, beq_iff_eq, not_and]
        intro hs ht
        exact absurd ⟨hs, ht⟩ (h2 e he)
      simp [isValidConnection, h1, hf, h3]
  · rintro (rfl | rfl)
    · simp [isValidConnection]
    · match osrc with
      | none => simp [isValidConnection]
      | some s => simp [isValidConnection]
  · rintro s t rfl rfl h1
    simp [isValidConnection, h1]
  · rintro s t rfl rfl h1 ⟨e, he, hs, ht⟩
    have hf : (es.find? (fun e => e.source == s.id && e.target == t.id)).isSome :=
      List.find?_isSome.mpr ⟨e, he, by simp [hs, ht]⟩
    simp [isValidConnection, h1, hf]
  · rintro s t rfl rfl h1 h2 h3
    have hf : es.find? (fun e => e.source == s.id && e.target == t.id) = none := by
      apply List.find?_eq_none.mpr
      intro e he
      simp only [Bool.and_eq_true, beq_iff_eq, not_and]
      intro hs ht
      exact absurd ⟨hs, ht⟩ (h2 e he)
    simp [isValidConnection, h1, hf, h3]

theorem claim_C5_witness :
    isValidConnection (some nodeT1) (some nodeT1) [] = some "Cannot connect a node to itself" :=
  (claim_C5_check_order (some nodeT1) (some nodeT1) []).2.2.1 nodeT1 nodeT1 rfl rfl rfl

/-- C6: every thank-you node with at least one outgoing edge yields an error
tagged with the node id, whose issue id is the fixed stem thank-you-outgoing-
followed by the node id; on the linear funnel S1, O1, T1 with the extra back
edge T1 to S1, validation returns exactly that single error for T1. -/
theorem claim_C6_thankyou_error :
    (∀ (nodes : List FunnelNode) (edges : List FunnelEdge) (n : FunnelNode),
      n ∈ nodes → n.data.nodeType = .thankYou → 0 < (outgoingOf edges n.id).length →
      ({ id := "thank-you-outgoing-" ++ n.id, type := .error,
         message := "\"" ++ n.data.label ++ "\" should not have outgoing connections",
         nodeId := some n.id } : ValidationIssue) ∈ validateFunnel nodes edges)
    ∧ validateFunnel [nodeS1, nodeO1, nodeT1] c6edges =
        [{ id := "thank-you-outgoing-t1", type := .error,
           message := "\"Thank You\" should not have outgoing connections",
           nodeId := some "t1" }] := by
  constructor
  · intro nodes edges n hn h2 h3
    refine List.mem_flatMap.mpr ⟨n, hn, ?_⟩
    simp [nodeIssues, h2, h3]
  · decide

theorem claim_C6_witness :
    ({ id := "thank-you-outgoing-t1", type := .error,
       message := "\"Thank You\" should not have outgoing connections",
       nodeId := some "t1" } : ValidationIssue) ∈ validateFunnel [nodeS1, nodeO1, nodeT1] c6edges :=
  claim_C6_thankyou_error.1 [nodeS1, nodeO1, nodeT1] c6edges nodeT1
    (by decide) (by decide) (by decide)

theorem claim_C7_cex :
    ¬ (validateFunnel [nodeS1, nodeO1] []).length = 2 := by
  decide

/-- C7 amended: on the two-node edgeless graph S1, O1, validation returns
exactly three warnings — the sales-page warning that S1 should connect to an
Order Page, then one orphan warning for each of the two nodes. -/
theorem claim_C7_amended :
    validateFunnel [nodeS1, nodeO1] [] =
      [{ id := "sales-no-outgoing-s1", type := .warning,
         message := "\"Sales Page\" should connect to an Order Page", nodeId := some "s1" },
       { id := "orphan-s1", type := .warning,
         message := "\"Sales Page\" is not connected to any other node", nodeId := some "s1" },
       { id := "orphan-o1", type := .warning,
         message := "\"Order Page\" is not connected to any other node", nodeId := some "o1" }] := by
  decide

theorem effectStep_nodes (s : Store) : (effectStep s).nodes = s.nodes := by
  unfold effectStep
  split
  · split <;> rfl
  · rfl

theorem effectStep_edges (s : Store) : (effectStep s).edges = s.edges := by
  unfold effectStep
  split
  · split <;> rfl
  · rfl

theorem effectStep_counters (s : Store) : (effectStep s).counters = s.counters := by
  unfold effectStep
  split
  · split <;> rfl
  · rfl

theorem effectStep_nextId (s : Store) : (effectStep s).nextId = s.nextId := by
  unfold effectStep
  split
  · split <;> rfl
  · rfl

theorem settleAux_succ (fuel : Nat) (s : Store) :
    settleAux (fuel + 1) s =
      if (effectStep s).historyIndex = s.historyIndex then effectStep s
      else settleAux fuel (effectStep s) :=
  rfl

theorem settleAux_nodes : ∀ (fuel : Nat) (s : Store), (settleAux fuel s).nodes = s.nodes := by
  intro fuel
  induction fuel with
  | zero => intro s; rfl
  | succ n ih =>
      intro s
      rw [settleAux_succ]
      split
      · exact effectStep_nodes s
      · rw [ih (effectStep s), effectStep_nodes s]

theorem settleAux_edges : ∀ (fuel : Nat) (s : Store), (settleAux fuel s).edges = s.edges := by
  intro fuel
  induction fuel with
  | zero => intro s; rfl
  | succ n ih =>
      intro s
      rw [settleAux_succ]
      split
      · exact effectStep_edges s
      · rw [ih (effectStep s), effectStep_edges s]

theorem settleAux_counters : ∀ (fuel : Nat) (s : Store), (settleAux fuel s).counters = s.counters := by
  intro fuel
  induction fuel with
  | zero => intro s; rfl
  | succ n ih =>
      intro s
      rw [settleAux_succ]
      split
      · exact effectStep_counters s
      · rw [ih (effectStep s), effectStep_counters s]

theorem settleAux_nextId : ∀ (fuel : Nat) (s : Store), (settleAux fuel s).nextId = s.nextId := by
  intro fuel
  induction fuel with
  | zero => intro s; rfl
  | succ n ih =>
      intro s
      rw [settleAux_succ]
      split
      · exact effectStep_nextId s
      · rw [ih (effectStep s), effectStep_nextId s]

theorem settle_nodes (s : Store) : (settle s).nodes = s.nodes :=
  settleAux_nodes 60 s

theorem settle_edges (s : Store) : (settle s).edges = s.edges :=
  settleAux_edges 60 s

theorem settle_counters (s : Store) : (settle s).counters = s.counters :=
  settleAux_counters 60 s

theorem settle_nextId (s : Store) : (settle s).nextId = s.nextId :=
  settleAux_nextId 60 s

theorem settle_eq_effectStep (s : Store) (h : (effectStep s).historyIndex = s.historyIndex) :
    settle s = effectStep s := by
  show settleAux 60 s = effectStep s
  rw [show (60 : Nat) = 59 + 1 from rfl, settleAux_succ, if_pos h]

theorem effectStep_flagged (s : Store) (h : s.isUndoRedo = true) :
    effectStep s = if s.nodes ≠ [] ∨ s.edges ≠ [] then { s with isUndoRedo := false } else s := by
  by_cases hP : s.nodes ≠ [] ∨ s.edges ≠ []
  · simp [effectStep, hP, h]
  · simp [effectStep, hP]

theorem effectStep_empty (s : Store) (h1 : s.nodes = []) (h2 : s.edges = []) :
    effectStep s = s := by
  simp [effectStep, h1, h2]

theorem settle_flagged (s : Store) (h : s.isUndoRedo = true) :
    settle s = if s.nodes ≠ [] ∨ s.edges ≠ [] then { s with isUndoRedo := false } else s := by
  have he := effectStep_flagged s h
  have hidx : (effectStep s).historyIndex = s.historyIndex := by
    rw [he]; split <;> rfl
  rw [settle_eq_effectStep s hidx, he]

theorem settle_empty (s : Store) (h1 : s.nodes = []) (h2 : s.edges = []) :
    settle s = s := by
  have he := effectStep_empty s h1 h2
  rw [settle_eq_effectStep s (by rw [he]), he]

theorem clearCanvas_eq (s : Store) :
    clearCanvas s = { s with nodes := [], edges := [], counters := { upsell := 0, downsell := 0 } } := by
  unfold clearCanvas
  exact settle_empty _ rfl rfl

theorem onConnect_reject (c : Connection) (s : Store) (r : String)
    (h : isValidConnection (s.nodes.find? (fun n => n.id == c.source))
           (s.nodes.find? (fun n => n.id == c.target)) s.edges = some r) :
    onConnect c s = (s, none) := by
  simp only [onConnect]
  rw [h]

/-- C2 corrected: when the legality check returns a non-null reason, the
connect attempt is a no-op — the whole store, node and edge sets included,
is unchanged — but the reason is not surfaced to the caller: the handler
logs it to the console and returns no value (`none`), so the reason is
discarded rather than propagated. -/
theorem claim_C2_amended :
    ∀ (c : Connection) (s : Store) (r : String),
      isValidConnection (s.nodes.find? (fun n => n.id == c.source))
        (s.nodes.find? (fun n => n.id == c.target)) s.edges = some r →
      onConnect c s = (s, none) := by
  intro c s r h
  exact onConnect_reject c s r h

theorem claim_C2_witness :
    onConnect conn0 store3 = (store3, none) :=
  claim_C2_amended conn0 store3 "Connection already exists" (by decide)

theorem claim_C2_cex :
    isValidConnection (store3.nodes.find? (fun n => n.id == conn0.source))
        (store3.nodes.find? (fun n => n.id == conn0.target)) store3.edges
      = some "Connection already exists"
    ∧ onConnect conn0 store3 = (store3, none) := by
  constructor
  · decide
  · exact onConnect_reject conn0 store3 "Connection already exists" (by decide)

theorem addNode_nodes (t : FunnelNodeType) (pos : Pos) (s : Store) :
    (addNode t pos s).nodes =
      s.nodes ++ [{ id := genId s.nextId, type := t, position := pos,
                    data := { label := (generateLabel t s.counters).label, nodeType := t,
                              buttonLabel := defaultButtonLabel t,
                              index := (generateLabel t s.counters).index } }] := by
  simp [addNode, settle_nodes]

theorem addNode_edges (t : FunnelNodeType) (pos : Pos) (s : Store) :
    (addNode t pos s).edges = s.edges := by
  simp [addNode, settle_edges]

theorem addNode_counters (t : FunnelNodeType) (pos : Pos) (s : Store) :
    (addNode t pos s).counters = (generateLabel t s.counters).counters := by
  simp [addNode, settle_counters]

theorem addNode_nextId (t : FunnelNodeType) (pos : Pos) (s : Store) :
    (addNode t pos s).nextId = s.nextId + 1 := by
  simp [addNode, settle_nextId]

theorem deleteNode_nodes (i : String) (s : Store) :
    (deleteNode i s).nodes = s.nodes.filter (fun n => !(n.id == i)) := by
  simp [deleteNode, settle_nodes]

theorem deleteNode_edges (i : String) (s : Store) :
    (deleteNode i s).edges = s.edges.filter (fun e => !(e.source == i) && !(e.target == i)) := by
  simp [deleteNode, settle_edges]

theorem deleteNode_counters (i : String) (s : Store) :
    (deleteNode i s).counters = s.counters := by
  simp [deleteNode, settle_counters]

theorem deleteNode_nextId (i : String) (s : Store) :
    (deleteNode i s).nextId = s.nextId := by
  simp [deleteNode, settle_nextId]

/-- C8: from a cleared store, three upsell adds are labelled Upsell 1, 2, 3;
after deleting the node labelled Upsell 2 (the second generated node), a
fourth upsell add is labelled Upsell 4 — the per-type counter is untouched
by deleteNode, never reusing a retired index, and is reset only by
clearCanvas (or recomputed by a load). -/
theorem claim_C8_upsell_counter :
    ((applyMutations [.add .upsell { x := 0, y := 0 }, .add .upsell { x := 0, y := 0 },
        .add .upsell { x := 0, y := 0 }] initialStore).nodes.map (fun n => n.data.label)
      = ["Upsell 1", "Upsell 2", "Upsell 3"])
    ∧ ((applyMutations [.add .upsell { x := 0, y := 0 }, .add .upsell { x := 0, y := 0 },
        .add .upsell { x := 0, y := 0 }, .delNode (genId 1), .add .upsell { x := 0, y := 0 }]
          initialStore).nodes.map (fun n => n.data.label)
      = ["Upsell 1", "Upsell 3", "Upsell 4"])
    ∧ (∀ (i : String) (s : Store), (deleteNode i s).counters = s.counters)
    ∧ (∀ s : Store, (clearCanvas s).counters = { upsell := 0, downsell := 0 }) := by
  refine ⟨by decide, by decide, deleteNode_counters, ?_⟩
  intro s
  rw [clearCanvas_eq]

theorem graphOf_settle (s : Store) : graphOf (settle s) = graphOf s := by
  simp [graphOf, settle_nodes, settle_edges]

theorem getD_replicate_append {j n : Nat} (h : j < n) (x : FunnelState)
    (l : List FunnelState) (d : FunnelState) :
    (List.replicate n x ++ l).getD j d = x := by
  rw [List.getD_eq_getElem?_getD,
    List.getElem?_append_left (by simpa using h), List.getElem?_replicate]
  simp [h]

theorem getD_concat_length (l : List FunnelState) (a d : FunnelState) :
    (l ++ [a]).getD l.length d = a := by
  rw [List.getD_eq_getElem?_getD, List.getElem?_concat_length]
  rfl

theorem getLast?_replicate_succ (n : Nat) (x : FunnelState) :
    (List.replicate (n + 1) x).getLast? = some x := by
  rw [List.getLast?_eq_getElem?]
  simp [List.getElem?_replicate]

theorem getD_of_getLast? (l : List FunnelState) (g d : FunnelState)
    (hlen : l.length = 50) (hlast : l.getLast? = some g) :
    l.getD 49 d = g := by
  rw [List.getD_eq_getElem?_getD]
  rw [List.getLast?_eq_getElem?, hlen] at hlast
  simp only [hlast]
  rfl

theorem effectStep_record (s : Store) (hne : s.nodes ≠ [] ∨ s.edges ≠ [])
    (hfl : s.isUndoRedo = false) :
    effectStep s =
      { s with
        history :=
          if 50 < (s.history.take (s.historyIndex + 1).toNat ++ [graphOf s]).length
          then (s.history.take (s.historyIndex + 1).toNat ++ [graphOf s]).drop 1
          else s.history.take (s.historyIndex + 1).toNat ++ [graphOf s],
        historyIndex := min (s.historyIndex + 1) 49,
        isUndoRedo := false } := by
  unfold effectStep
  rw [if_pos hne, if_neg (by simp [hfl])]

theorem settleAux_flood :
    ∀ (fuel : Nat) (s : Store) (i : Int),
      s.historyIndex = i → s.isUndoRedo = false →
      (s.nodes ≠ [] ∨ s.edges ≠ []) →
      (s.history.length : Int) = i + 1 →
      i ≤ 49 →
      (50 - i).toNat ≤ fuel →
      settleAux fuel s =
        { s with history := (s.history ++ List.replicate (50 - i).toNat (graphOf s)).drop 1,
                 historyIndex := 49, isUndoRedo := false } := by
  intro fuel
  induction fuel with
  | zero =>
      intro s i h1 h2 h3 h4 h6 hf
      exact absurd hf (by omega)
  | succ fuel ih =>
      intro s i h1 h2 h3 h4 h6 hf
      have htoNat : (i + 1).toNat = s.history.length := by omega
      have htake : s.history.take (s.historyIndex + 1).toNat = s.history := by
        rw [h1, htoNat, List.take_length]
      have hrec := effectStep_record s h3 h2
      rw [htake] at hrec
      by_cases htop : i = 49
      · subst htop
        have hlen : s.history.length = 50 := by omega
        have hcond : 50 < (s.history ++ [graphOf s]).length := by simp [hlen]
        rw [if_pos hcond, h1,
          show min ((49 : Int) + 1) 49 = 49 by omega] at hrec
        rw [settleAux_succ, hrec]
        rw [if_pos (by rw [h1])]
        rw [show ((50 : Int) - 49).toNat = 1 by decide, List.replicate_one]
      · have hlenNat : s.history.length = (i + 1).toNat := htoNat.symm
        have hcond : ¬ 50 < (s.history ++ [graphOf s]).length := by
          simp only [List.length_append, List.length_cons, List.length_nil]
          omega
        rw [if_neg hcond, h1,
          show min (i + 1) 49 = i + 1 by omega] at hrec
        rw [settleAux_succ, hrec]
        rw [if_neg (by rw [h1]; dsimp only; omega)]
        have hg : graphOf ({ s with history := s.history ++ [graphOf s],
                                    historyIndex := i + 1, isUndoRedo := false } : Store) = graphOf s := rfl
        rw [ih { s with history := s.history ++ [graphOf s],
                        historyIndex := i + 1, isUndoRedo := false } (i + 1)
              rfl rfl h3
              (by simp only [List.length_append, List.length_cons, List.length_nil]
                  push_cast
                  omega)
              (by omega) (by omega),
           hg]
        simp only [Store.mk.injEq, and_true, true_and]
        rw [List.append_assoc]
        have hcount : ((50 : Int) - i).toNat = (50 - (i + 1)).toNat + 1 := by omega
        rw [hcount, List.replicate_succ]
        rfl

theorem settle_flood (s : Store) (i : Int)
    (h1 : s.historyIndex = i) (h2 : s.isUndoRedo = false)
    (h3 : s.nodes ≠ [] ∨ s.edges ≠ [])
    (h4 : (s.history.length : Int) = i + 1) (h6 : i ≤ 49) :
    settle s =
      { s with history := (s.history ++ List.replicate (50 - i).toNat (graphOf s)).drop 1,
               historyIndex := 49, isUndoRedo := false } :=
  settleAux_flood 60 s i h1 h2 h3 h4 h6 (by omega)

theorem undo_components (s : Store) (h : 0 < s.historyIndex) :
    (undo s).nodes = (s.history.getD (s.historyIndex - 1).toNat { nodes := [], edges := [] }).nodes ∧
    (undo s).edges = (s.history.getD (s.historyIndex - 1).toNat { nodes := [], edges := [] }).edges ∧
    (undo s).history = s.history ∧
    (undo s).historyIndex = s.historyIndex - 1 ∧
    (undo s).counters = s.counters ∧
    (undo s).nextId = s.nextId := by
  simp only [undo]
  rw [if_pos h]
  rw [settle_flagged _ rfl]
  split <;> exact ⟨rfl, rfl, rfl, rfl, rfl, rfl⟩

theorem redo_components (s : Store) (h : s.historyIndex < (s.history.length : Int) - 1) :
    (redo s).nodes = (s.history.getD (s.historyIndex + 1).toNat { nodes := [], edges := [] }).nodes ∧
    (redo s).edges = (s.history.getD (s.historyIndex + 1).toNat { nodes := [], edges := [] }).edges ∧
    (redo s).history = s.history ∧
    (redo s).historyIndex = s.historyIndex + 1 ∧
    (redo s).counters = s.counters ∧
    (redo s).nextId = s.nextId := by
  simp only [redo]
  rw [if_pos h]
  rw [settle_flagged _ rfl]
  split <;> exact ⟨rfl, rfl, rfl, rfl, rfl, rfl⟩

theorem applyMutation_core (m : Mutation) (s : Store)
    (hfl : s.isUndoRedo = false) (hr : Records m s) :
    ∃ core : Store,
      applyMutation m s = settle core ∧
      core.history = s.history ∧ core.historyIndex = s.historyIndex ∧
      core.isUndoRedo = false ∧ (core.nodes ≠ [] ∨ core.edges ≠ []) := by
  cases m with
  | add t pos =>
      refine ⟨{ s with
                nodes := s.nodes ++ [{ id := genId s.nextId, type := t, position := pos,
                                       data := { label := (generateLabel t s.counters).label,
                                                 nodeType := t,
                                                 buttonLabel := defaultButtonLabel t,
                                                 index := (generateLabel t s.counters).index } }],
                counters := (generateLabel t s.counters).counters,
                nextId := s.nextId + 1 }, rfl, rfl, rfl, hfl, Or.inl (by simp)⟩
  | connect c =>
      have hnone : isValidConnection (s.nodes.find? (fun n => n.id == c.source))
          (s.nodes.find? (fun n => n.id == c.target)) s.edges = none := hr
      have heq : applyMutation (.connect c) s =
          settle { s with edges := addEdgeFlow (mkFlowEdge c) s.edges } := by
        show (onConnect c s).1 = _
        simp only [onConnect]
        rw [hnone]
      have hsrc : ∃ n, s.nodes.find? (fun n => n.id == c.source) = some n := by
        cases hfind : s.nodes.find? (fun n => n.id == c.source) with
        | none =>
            cases htf : s.nodes.find? (fun n => n.id == c.target) <;>
              rw [hfind, htf] at hnone <;> simp [isValidConnection] at hnone
        | some n => exact ⟨n, rfl⟩
      obtain ⟨n, hn⟩ := hsrc
      exact ⟨_, heq, rfl, rfl, hfl,
        Or.inl (List.ne_nil_of_mem (List.mem_of_find?_eq_some hn))⟩
  | delNode i =>
      exact ⟨{ s with nodes := s.nodes.filter (fun n => !(n.id == i)),
                      edges := s.edges.filter (fun e => !(e.source == i) && !(e.target == i)) },
        rfl, rfl, rfl, hfl, hr⟩
  | delEdge i =>
      exact ⟨{ s with edges := s.edges.filter (fun e => !(e.id == i)) },
        rfl, rfl, rfl, hfl, hr⟩
  | clearAll => exact hr.elim

theorem applyMutation_record_first (m : Mutation) (s : Store)
    (hfl : s.isUndoRedo = false) (hh : s.history = []) (hi : s.historyIndex = -1)
    (hr : Records m s) :
    (applyMutation m s).history = List.replicate 50 (graphOf (applyMutation m s)) ∧
    (applyMutation m s).historyIndex = 49 ∧
    (applyMutation m s).isUndoRedo = false := by
  obtain ⟨core, heq, hch, hci, hcf, hcne⟩ := applyMutation_core m s hfl hr
  have hflood := settle_flood core (-1) (by rw [hci, hi]) hcf hcne
      (by rw [hch, hh]; simp) (by norm_num)
  have hgraph : graphOf (applyMutation m s) = graphOf core := by rw [heq, graphOf_settle]
  have hhist : (applyMutation m s).history = List.replicate 50 (graphOf core) := by
    rw [heq, hflood]
    dsimp only
    rw [hch, hh, List.nil_append, show ((50 : Int) - (-1)).toNat = 51 by decide,
        show (51 : Nat) = 50 + 1 from rfl, List.replicate_succ]
    simp
  refine ⟨by rw [hhist, hgraph], by rw [heq, hflood], by rw [heq, hflood]⟩

theorem applyMutation_record_next (m : Mutation) (s : Store)
    (hfl : s.isUndoRedo = false) (hlen : s.history.length = 50) (hi : s.historyIndex = 49)
    (hr : Records m s) :
    (applyMutation m s).history = s.history.drop 1 ++ [graphOf (applyMutation m s)] ∧
    (applyMutation m s).history.length = 50 ∧
    (applyMutation m s).historyIndex = 49 ∧
    (applyMutation m s).isUndoRedo = false ∧
    (applyMutation m s).history.getLast? = some (graphOf (applyMutation m s)) := by
  obtain ⟨core, heq, hch, hci, hcf, hcne⟩ := applyMutation_core m s hfl hr
  have hflood := settle_flood core 49 (by rw [hci, hi]) hcf hcne
      (by rw [hch, hlen]; norm_num) (by norm_num)
  have hgraph : graphOf (applyMutation m s) = graphOf core := by rw [heq, graphOf_settle]
  have hhist : (applyMutation m s).history = s.history.drop 1 ++ [graphOf core] := by
    rw [heq, hflood]
    dsimp only
    rw [hch, show ((50 : Int) - 49).toNat = 1 by decide, List.replicate_one,
        List.drop_append_eq_append_drop]
    simp [hlen]
  refine ⟨by rw [hgraph]; exact hhist, ?_, by rw [heq, hflood], by rw [heq, hflood], ?_⟩
  · rw [hhist]
    simp [hlen]
  · rw [hgraph, hhist]
    exact List.getLast?_concat _

theorem applyMutations_nil (s : Store) : applyMutations [] s = s :=
  rfl

theorem applyMutations_cons (m : Mutation) (ms : List Mutation) (s : Store) :
    applyMutations (m :: ms) s = applyMutations ms (applyMutation m s) :=
  rfl

theorem graphsAlong_length : ∀ (ms : List Mutation) (s : Store),
    (graphsAlong ms s).length = ms.length := by
  intro ms
  induction ms with
  | nil => intro s; rfl
  | cons m ms ih => intro s; simp [graphsAlong, ih]

theorem applyMutations_record_shape :
    ∀ (ms : List Mutation) (s : Store),
      s.isUndoRedo = false → s.historyIndex = 49 → s.history.length = 50 →
      s.history.getLast? = some (graphOf s) →
      RecAlong ms s → ms.length ≤ 49 →
      (applyMutations ms s).isUndoRedo = false ∧
      (applyMutations ms s).historyIndex = 49 ∧
      (applyMutations ms s).history.length = 50 ∧
      (applyMutations ms s).history.getLast? = some (graphOf (applyMutations ms s)) ∧
      (applyMutations ms s).history = s.history.drop ms.length ++ graphsAlong ms s := by
  intro ms
  induction ms with
  | nil =>
      intro s h1 h2 h3 h4 _ _
      exact ⟨h1, h2, h3, h4, by simp [applyMutations, graphsAlong]⟩
  | cons m ms ih =>
      intro s h1 h2 h3 h4 hrec hlen
      obtain ⟨hr, hrest⟩ := hrec
      obtain ⟨hh', hl', hi', hf', hlast'⟩ := applyMutation_record_next m s h1 h3 h2 hr
      rw [applyMutations_cons]
      have hlen2 : ms.length ≤ 49 := by
        simp only [List.length_cons] at hlen
        omega
      have hmain := ih (applyMutation m s) hf' hi' hl' hlast' hrest hlen2
      refine ⟨hmain.1, hmain.2.1, hmain.2.2.1, hmain.2.2.2.1, ?_⟩
      rw [hmain.2.2.2.2, hh']
      rw [List.drop_append_eq_append_drop]
      have hd1 : (s.history.drop 1).length = 49 := by simp [h3]
      rw [List.drop_drop]
      have hsub : ms.length - (s.history.drop 1).length = 0 := by omega
      rw [hsub]
      simp [graphsAlong, List.append_assoc, Nat.add_comm]

theorem applyMutation_MInv (m : Mutation) (s : Store) (hm : MInv s) :
    MInv (applyMutation m s) := by
  obtain ⟨hfl, hcase⟩ := hm
  by_cases hr : Records m s
  · rcases hcase with ⟨hh, hi⟩ | ⟨hl, hi⟩
    · obtain ⟨hh', hi', hf'⟩ := applyMutation_record_first m s hfl hh hi hr
      exact ⟨hf', Or.inr ⟨by rw [hh']; simp, hi'⟩⟩
    · obtain ⟨_, hl', hi', hf', _⟩ := applyMutation_record_next m s hfl hl hi hr
      exact ⟨hf', Or.inr ⟨hl', hi'⟩⟩
  · cases m with
    | add t pos => exact absurd trivial hr
    | connect c =>
        have hex : ∃ r, isValidConnection (s.nodes.find? (fun n => n.id == c.source))
            (s.nodes.find? (fun n => n.id == c.target)) s.edges = some r := by
          cases hv : isValidConnection (s.nodes.find? (fun n => n.id == c.source))
              (s.nodes.find? (fun n => n.id == c.target)) s.edges with
          | none => exact absurd hv hr
          | some r => exact ⟨r, rfl⟩
        obtain ⟨r, hv⟩ := hex
        show MInv ((onConnect c s).1)
        rw [onConnect_reject c s r hv]
        exact ⟨hfl, hcase⟩
    | delNode i =>
        simp only [Records, not_or, not_not] at hr
        show MInv (deleteNode i s)
        unfold deleteNode
        rw [show s.nodes.filter (fun n => !(n.id == i)) = [] from hr.1,
            show s.edges.filter (fun e => !(e.source == i) && !(e.target == i)) = []
              from hr.2]
        rw [settle_empty _ rfl rfl]
        exact ⟨hfl, hcase⟩
    | delEdge i =>
        simp only [Records, not_or, not_not] at hr
        show MInv (deleteEdge i s)
        unfold deleteEdge
        rw [show s.edges.filter (fun e => !(e.id == i)) = [] from hr.2]
        rw [settle_empty { s with edges := [] } hr.1 rfl]
        exact ⟨hfl, hcase⟩
    | clearAll =>
        show MInv (clearCanvas s)
        rw [clearCanvas_eq]
        exact ⟨hfl, hcase⟩

theorem applyMutations_MInv (ms : List Mutation) :
    ∀ s, MInv s → MInv (applyMutations ms s) := by
  induction ms with
  | nil => intro s h; exact h
  | cons m ms ih =>
      intro s h
      rw [applyMutations_cons]
      exact ih _ (applyMutation_MInv m s h)

theorem initialStore_MInv : MInv initialStore :=
  ⟨rfl, Or.inl ⟨rfl, rfl⟩⟩

theorem applyOp_core (op : StoreOp) (s : Store)
    (hfl : s.isUndoRedo = false) (hr : RecordsOp op s) :
    ∃ core : Store,
      applyOp op s = settle core ∧
      core.history = s.history ∧ core.historyIndex = s.historyIndex ∧
      core.isUndoRedo = false ∧ (core.nodes ≠ [] ∨ core.edges ≠ []) := by
  cases op with
  | mutate m => exact applyMutation_core m s hfl hr
  | load st =>
      exact ⟨{ s with nodes := st.nodes, edges := st.edges,
                      counters := recomputeCounters st.nodes },
        rfl, rfl, rfl, hfl, hr⟩

theorem applyOp_record_first (op : StoreOp) (s : Store)
    (hfl : s.isUndoRedo = false) (hh : s.history = []) (hi : s.historyIndex = -1)
    (hr : RecordsOp op s) :
    (applyOp op s).history = List.replicate 50 (graphOf (applyOp op s)) ∧
    (applyOp op s).historyIndex = 49 ∧
    (applyOp op s).isUndoRedo = false := by
  obtain ⟨core, heq, hch, hci, hcf, hcne⟩ := applyOp_core op s hfl hr
  have hflood := settle_flood core (-1) (by rw [hci, hi]) hcf hcne
      (by rw [hch, hh]; simp) (by norm_num)
  have hgraph : graphOf (applyOp op s) = graphOf core := by rw [heq, graphOf_settle]
  have hhist : (applyOp op s).history = List.replicate 50 (graphOf core) := by
    rw [heq, hflood]
    dsimp only
    rw [hch, hh, List.nil_append, show ((50 : Int) - (-1)).toNat = 51 by decide,
        show (51 : Nat) = 50 + 1 from rfl, List.replicate_succ]
    simp
  refine ⟨by rw [hhist, hgraph], by rw [heq, hflood], by rw [heq, hflood]⟩

theorem applyOp_record_next (op : StoreOp) (s : Store)
    (hfl : s.isUndoRedo = false) (hlen : s.history.length = 50) (hi : s.historyIndex = 49)
    (hr : RecordsOp op s) :
    (applyOp op s).history = s.history.drop 1 ++ [graphOf (applyOp op s)] ∧
    (applyOp op s).history.length = 50 ∧
    (applyOp op s).historyIndex = 49 ∧
    (applyOp op s).isUndoRedo = false ∧
    (applyOp op s).history.getLast? = some (graphOf (applyOp op s)) := by
  obtain ⟨core, heq, hch, hci, hcf, hcne⟩ := applyOp_core op s hfl hr
  have hflood := settle_flood core 49 (by rw [hci, hi]) hcf hcne
      (by rw [hch, hlen]; norm_num) (by norm_num)
  have hgraph : graphOf (applyOp op s) = graphOf core := by rw [heq, graphOf_settle]
  have hhist : (applyOp op s).history = s.history.drop 1 ++ [graphOf core] := by
    rw [heq, hflood]
    dsimp only
    rw [hch, show ((50 : Int) - 49).toNat = 1 by decide, List.replicate_one,
        List.drop_append_eq_append_drop]
    simp [hlen]
  refine ⟨by rw [hgraph]; exact hhist, ?_, by rw [heq, hflood], by rw [heq, hflood], ?_⟩
  · rw [hhist]
    simp [hlen]
  · rw [hgraph, hhist]
    exact List.getLast?_concat _

theorem applyOp_MInv (op : StoreOp) (s : Store) (hm : MInv s) :
    MInv (applyOp op s) := by
  cases op with
  | mutate m => exact applyMutation_MInv m s hm
  | load st =>
      obtain ⟨hfl, hcase⟩ := hm
      by_cases hr : st.nodes ≠ [] ∨ st.edges ≠ []
      · rcases hcase with ⟨hh, hi⟩ | ⟨hl, hi⟩
        · obtain ⟨hh', hi', hf'⟩ := applyOp_record_first (.load st) s hfl hh hi hr
          exact ⟨hf', Or.inr ⟨by rw [hh']; simp, hi'⟩⟩
        · obtain ⟨_, hl', hi', hf', _⟩ := applyOp_record_next (.load st) s hfl hl hi hr
          exact ⟨hf', Or.inr ⟨hl', hi'⟩⟩
      · simp only [not_or, not_not] at hr
        show MInv (loadState st s)
        unfold loadState
        rw [hr.1, hr.2]
        rw [settle_empty { s with nodes := [], edges := [],
                                  counters := recomputeCounters [] } rfl rfl]
        exact ⟨hfl, hcase⟩

theorem applyOps_cons (op : StoreOp) (ops : List StoreOp) (s : Store) :
    applyOps (op :: ops) s = applyOps ops (applyOp op s) :=
  rfl

theorem applyOps_MInv (ops : List StoreOp) :
    ∀ s, MInv s → MInv (applyOps ops s) := by
  induction ops with
  | nil => intro s h; exact h
  | cons op ops ih =>
      intro s h
      rw [applyOps_cons]
      exact ih _ (applyOp_MInv op s h)

/-- C4 corrected: an operation that records — addNode, an accepted connect,
deleteNode/deleteEdge leaving a non-empty graph, or loadState with a
non-empty payload — leaves the history cursor snapshot equal to the current
graph, in every state reachable by any sequence of mutations and loads; but
clearCanvas records nothing — the effect body is guarded on a non-empty
graph — so after a clear the history and cursor are unchanged while the
graph is empty. -/
theorem claim_C4_snapshot_at_cursor :
    ∀ (ops : List StoreOp) (op : StoreOp),
      (RecordsOp op (applyOps ops initialStore) →
        cursorSnap (applyOp op (applyOps ops initialStore)) =
          graphOf (applyOp op (applyOps ops initialStore)))
      ∧ (clearCanvas (applyOps ops initialStore)).history =
          (applyOps ops initialStore).history
      ∧ (clearCanvas (applyOps ops initialStore)).historyIndex =
          (applyOps ops initialStore).historyIndex
      ∧ graphOf (clearCanvas (applyOps ops initialStore)) =
          { nodes := [], edges := [] } := by
  intro ops op
  obtain ⟨hfl, hcase⟩ := applyOps_MInv ops initialStore initialStore_MInv
  refine ⟨?_, ?_, ?_, ?_⟩
  · intro hr
    rcases hcase with ⟨hh, hi⟩ | ⟨hl, hi⟩
    · obtain ⟨hh', hi', _⟩ := applyOp_record_first op _ hfl hh hi hr
      unfold cursorSnap
      rw [hh', hi', show ((49 : Int)).toNat = 49 from rfl,
          List.getD_eq_getElem?_getD, List.getElem?_replicate]
      simp
    · obtain ⟨_, hl', hi', _, hlast'⟩ := applyOp_record_next op _ hfl hl hi hr
      unfold cursorSnap
      rw [hi', show ((49 : Int)).toNat = 49 from rfl]
      exact getD_of_getLast? _ _ _ hl' hlast'
  · rw [clearCanvas_eq]
  · rw [clearCanvas_eq]
  · rw [clearCanvas_eq]
    rfl

theorem claim_C4_witness :
    cursorSnap (applyOp (.load { nodes := [nodeS1], edges := [] }) initialStore) =
      graphOf (applyOp (.load { nodes := [nodeS1], edges := [] }) initialStore) :=
  (claim_C4_snapshot_at_cursor [] (.load { nodes := [nodeS1], edges := [] })).1
    (Or.inl (by simp))

theorem claim_C4_cex :
    cursorSnap (clearCanvas (applyMutation (.add .salesPage { x := 0, y := 0 }) initialStore)) ≠
      graphOf (clearCanvas (applyMutation (.add .salesPage { x := 0, y := 0 }) initialStore)) := by
  intro h
  obtain ⟨hh', hi', _⟩ := applyMutation_record_first (.add .salesPage { x := 0, y := 0 })
    initialStore rfl rfl rfl trivial
  unfold cursorSnap at h
  rw [clearCanvas_eq] at h
  dsimp only at h
  rw [hh', hi', show ((49 : Int)).toNat = 49 from rfl,
      List.getD_eq_getElem?_getD, List.getElem?_replicate] at h
  simp only [show (49 < 50) = True by simp, if_true] at h
  have hnodes := congrArg FunnelState.nodes h
  simp only [graphOf] at hnodes
  rw [show applyMutation (.add .salesPage { x := 0, y := 0 }) initialStore =
        addNode .salesPage { x := 0, y := 0 } initialStore from rfl,
      addNode_nodes] at hnodes
  simp at hnodes

theorem undoN :
    ∀ (n : Nat) (s : Store),
      s.history.length = 50 → 0 ≤ s.historyIndex → s.historyIndex ≤ 49 →
      s.nodes = (s.history.getD s.historyIndex.toNat { nodes := [], edges := [] }).nodes →
      s.edges = (s.history.getD s.historyIndex.toNat { nodes := [], edges := [] }).edges →
      (undo^[n] s).history = s.history ∧
      (undo^[n] s).historyIndex = max (s.historyIndex - n) 0 ∧
      (undo^[n] s).nodes =
        (s.history.getD (max (s.historyIndex - n) 0).toNat { nodes := [], edges := [] }).nodes ∧
      (undo^[n] s).edges =
        (s.history.getD (max (s.historyIndex - n) 0).toNat { nodes := [], edges := [] }).edges := by
  intro n
  induction n with
  | zero =>
      intro s h1 h2 h3 h4 h5
      have hmax : max (s.historyIndex - ((0 : Nat) : Int)) 0 = s.historyIndex := by
        push_cast
        omega
      rw [Function.iterate_zero_apply, hmax]
      exact ⟨rfl, rfl, h4, h5⟩
  | succ n ih =>
      intro s h1 h2 h3 h4 h5
      rw [Function.iterate_succ_apply]
      by_cases hpos : 0 < s.historyIndex
      · obtain ⟨hn, he, hh, hi, _, _⟩ := undo_components s hpos
        have ihres := ih (undo s) (by rw [hh, h1]) (by rw [hi]; omega) (by rw [hi]; omega)
            (by rw [hn, hh, hi]) (by rw [he, hh, hi])
        rw [hh, hi] at ihres
        have hshift : max (s.historyIndex - 1 - (n : Int)) 0 =
            max (s.historyIndex - ((n + 1 : Nat) : Int)) 0 := by
          push_cast
          omega
        rw [hshift] at ihres
        exact ihres
      · have hstep : undo s = s := by
          simp only [undo]
          rw [if_neg hpos]
        rw [hstep]
        have ihres := ih s h1 h2 h3 h4 h5
        have hshift : max (s.historyIndex - (n : Int)) 0 =
            max (s.historyIndex - ((n + 1 : Nat) : Int)) 0 := by
          push_cast
          omega
        rw [hshift] at ihres
        exact ihres

theorem redoN :
    ∀ (n : Nat) (s : Store),
      s.history.length = 50 → 0 ≤ s.historyIndex → s.historyIndex ≤ 49 →
      s.nodes = (s.history.getD s.historyIndex.toNat { nodes := [], edges := [] }).nodes →
      s.edges = (s.history.getD s.historyIndex.toNat { nodes := [], edges := [] }).edges →
      (redo^[n] s).history = s.history ∧
      (redo^[n] s).historyIndex = min (s.historyIndex + n) 49 ∧
      (redo^[n] s).nodes =
        (s.history.getD (min (s.historyIndex + n) 49).toNat { nodes := [], edges := [] }).nodes ∧
      (redo^[n] s).edges =
        (s.history.getD (min (s.historyIndex + n) 49).toNat { nodes := [], edges := [] }).edges := by
  intro n
  induction n with
  | zero =>
      intro s h1 h2 h3 h4 h5
      have hmin : min (s.historyIndex + ((0 : Nat) : Int)) 49 = s.historyIndex := by
        push_cast
        omega
      rw [Function.iterate_zero_apply, hmin]
      exact ⟨rfl, rfl, h4, h5⟩
  | succ n ih =>
      intro s h1 h2 h3 h4 h5
      rw [Function.iterate_succ_apply]
      by_cases hlt : s.historyIndex < (s.history.length : Int) - 1
      · obtain ⟨hn, he, hh, hi, _, _⟩ := redo_components s hlt
        have hlt49 : s.historyIndex < 49 := by
          rw [h1] at hlt
          push_cast at hlt
          omega
        have ihres := ih (redo s) (by rw [hh, h1]) (by rw [hi]; omega) (by rw [hi]; omega)
            (by rw [hn, hh, hi]) (by rw [he, hh, hi])
        rw [hh, hi] at ihres
        have hshift : min (s.historyIndex + 1 + (n : Int)) 49 =
            min (s.historyIndex + ((n + 1 : Nat) : Int)) 49 := by
          push_cast
          omega
        rw [hshift] at ihres
        exact ihres
      · have hstep : redo s = s := by
          simp only [redo]
          rw [if_neg hlt]
        have htop : s.historyIndex = 49 := by
          rw [h1] at hlt
          push_cast at hlt
          omega
        rw [hstep]
        have ihres := ih s h1 h2 h3 h4 h5
        have hshift : min (s.historyIndex + (n : Int)) 49 =
            min (s.historyIndex + ((n + 1 : Nat) : Int)) 49 := by
          push_cast
          omega
        rw [hshift] at ihres
        exact ihres

/-- C3 corrected: the initial empty graph is never recorded — the history
effect is guarded on a non-empty graph — so undo can never reach it. For any
sequence of N recording mutations (N at most 50) from the empty store,
calling undo N times lands on the state after the FIRST mutation, not the
empty state; calling redo N times afterwards does reconstruct the final
graph exactly. -/
theorem claim_C3_roundtrip :
    ∀ (m : Mutation) (rest : List Mutation),
      RecAlong (m :: rest) initialStore → rest.length ≤ 49 →
      graphOf (undo^[(m :: rest).length] (applyMutations (m :: rest) initialStore)) =
        graphOf (applyMutation m initialStore) ∧
      graphOf (redo^[(m :: rest).length]
          (undo^[(m :: rest).length] (applyMutations (m :: rest) initialStore))) =
        graphOf (applyMutations (m :: rest) initialStore) := by
  intro m rest hrec hlen
  obtain ⟨hr1, hrest⟩ := hrec
  obtain ⟨hh1, hi1, hf1⟩ := applyMutation_record_first m initialStore rfl rfl rfl hr1
  have hlen1 : (applyMutation m initialStore).history.length = 50 := by
    rw [hh1]
    simp
  have hlast1 : (applyMutation m initialStore).history.getLast? =
      some (graphOf (applyMutation m initialStore)) := by
    rw [hh1]
    exact getLast?_replicate_succ 49 _
  have hseq := applyMutations_record_shape rest (applyMutation m initialStore)
      hf1 hi1 hlen1 hlast1 hrest hlen
  rw [← applyMutations_cons] at hseq
  obtain ⟨hfN, hiN, hlN, hlastN, hhistN⟩ := hseq
  have hhist2 : (applyMutations (m :: rest) initialStore).history =
      List.replicate (50 - rest.length) (graphOf (applyMutation m initialStore)) ++
        graphsAlong rest (applyMutation m initialStore) := by
    rw [hhistN, hh1, List.drop_replicate]
  have hc_nodes : (applyMutations (m :: rest) initialStore).nodes =
      ((applyMutations (m :: rest) initialStore).history.getD
        (applyMutations (m :: rest) initialStore).historyIndex.toNat
        { nodes := [], edges := [] }).nodes := by
    rw [hiN, show ((49 : Int)).toNat = 49 from rfl, getD_of_getLast? _ _ _ hlN hlastN]
    rfl
  have hc_edges : (applyMutations (m :: rest) initialStore).edges =
      ((applyMutations (m :: rest) initialStore).history.getD
        (applyMutations (m :: rest) initialStore).historyIndex.toNat
        { nodes := [], edges := [] }).edges := by
    rw [hiN, show ((49 : Int)).toNat = 49 from rfl, getD_of_getLast? _ _ _ hlN hlastN]
    rfl
  have hu := undoN ((m :: rest).length) (applyMutations (m :: rest) initialStore)
      hlN (by rw [hiN]; norm_num) (by rw [hiN]) hc_nodes hc_edges
  rw [hiN] at hu
  obtain ⟨huh, hui, hun, hue⟩ := hu
  have hgetD : (applyMutations (m :: rest) initialStore).history.getD
      (max (49 - ((m :: rest).length : Int)) 0).toNat { nodes := [], edges := [] } =
      graphOf (applyMutation m initialStore) := by
    rw [hhist2]
    refine getD_replicate_append ?_ _ _ _
    simp only [List.length_cons]
    omega
  constructor
  · show graphOf _ = _
    unfold graphOf
    rw [hun, hue, hgetD]
    rfl
  · have hr_nodes := hun
    have hr_edges := hue
    rw [← huh] at hr_nodes hr_edges
    rw [← hui] at hr_nodes hr_edges
    have hr2 := redoN ((m :: rest).length) (undo^[(m :: rest).length]
        (applyMutations (m :: rest) initialStore))
        (by rw [huh, hlN]) (by rw [hui]; omega) (by rw [hui]; omega) hr_nodes hr_edges
    rw [huh, hui] at hr2
    obtain ⟨_, _, hrn, hre⟩ := hr2
    have hmin : min (max (49 - ((m :: rest).length : Int)) 0 + ((m :: rest).length : Int)) 49
        = 49 := by
      simp only [List.length_cons]
      push_cast
      omega
    rw [hmin] at hrn hre
    show graphOf _ = _
    unfold graphOf
    rw [hrn, hre, show ((49 : Int)).toNat = 49 from rfl,
        getD_of_getLast? _ _ _ hlN hlastN]
    rfl

theorem claim_C3_witness :
    graphOf (undo^[([Mutation.add .salesPage { x := 0, y := 0 },
        Mutation.add .orderPage { x := 100, y := 0 }] : List Mutation).length]
        (applyMutations [Mutation.add .salesPage { x := 0, y := 0 },
          Mutation.add .orderPage { x := 100, y := 0 }] initialStore)) =
      graphOf (applyMutation (.add .salesPage { x := 0, y := 0 }) initialStore) ∧
    graphOf (redo^[([Mutation.add .salesPage { x := 0, y := 0 },
        Mutation.add .orderPage { x := 100, y := 0 }] : List Mutation).length]
        (undo^[([Mutation.add .salesPage { x := 0, y := 0 },
          Mutation.add .orderPage { x := 100, y := 0 }] : List Mutation).length]
          (applyMutations [Mutation.add .salesPage { x := 0, y := 0 },
            Mutation.add .orderPage { x := 100, y := 0 }] initialStore))) =
      graphOf (applyMutations [Mutation.add .salesPage { x := 0, y := 0 },
        Mutation.add .orderPage { x := 100, y := 0 }] initialStore) :=
  claim_C3_roundtrip (.add .salesPage { x := 0, y := 0 })
    [.add .orderPage { x := 100, y := 0 }]
    ⟨trivial, trivial, trivial⟩ (by norm_num)

theorem claim_C3_cex :
    (undo (applyMutation (.add .salesPage { x := 0, y := 0 }) initialStore)).nodes ≠ [] := by
  obtain ⟨hh1, hi1, _⟩ := applyMutation_record_first (.add .salesPage { x := 0, y := 0 })
    initialStore rfl rfl rfl trivial
  have hpos : 0 < (applyMutation (.add .salesPage { x := 0, y := 0 }) initialStore).historyIndex := by
    rw [hi1]
    norm_num
  obtain ⟨hn, _, _, _, _, _⟩ := undo_components _ hpos
  rw [hn, hh1, hi1, show ((49 : Int) - 1).toNat = 48 from rfl,
      List.getD_eq_getElem?_getD, List.getElem?_replicate]
  simp only [show (48 < 50) = True by simp, if_true, Option.getD_some]
  show (graphOf _).nodes ≠ []
  unfold graphOf
  dsimp only
  rw [show applyMutation (.add .salesPage { x := 0, y := 0 }) initialStore =
        addNode .salesPage { x := 0, y := 0 } initialStore from rfl,
      addNode_nodes]
  simp

theorem isValidConnection_none_inv (ns nt : FunnelNode) (es : List FunnelEdge)
    (hv : isValidConnection (some ns) (some nt) es = none) :
    ns.id ≠ nt.id ∧ (∀ e ∈ es, ¬(e.source = ns.id ∧ e.target = nt.id)) ∧
      ns.data.nodeType ≠ .thankYou := by
  by_cases h1 : ns.id = nt.id
  · simp [isValidConnection, h1] at hv
  by_cases h2 : (es.find? (fun e => e.source == ns.id && e.target == nt.id)).isSome
  · simp [isValidConnection, h1, h2] at hv
  by_cases h3 : ns.data.nodeType = .thankYou
  · simp [isValidConnection, h1, h2, h3] at hv
  refine ⟨h1, ?_, h3⟩
  intro e he hc
  exact h2 (List.find?_isSome.mpr ⟨e, he, by simp [hc.1, hc.2]⟩)

theorem StoreOk_settle (s : Store) (h : StoreOk s) : StoreOk (settle s) := by
  unfold StoreOk IdsOk EdgeLive EdgeOk at h ⊢
  rw [settle_nodes, settle_edges, settle_nextId]
  exact h

theorem StoreOk_initial : StoreOk initialStore := by
  unfold StoreOk IdsOk EdgeLive EdgeOk initialStore
  simp

theorem applyMutation_StoreOk (m : Mutation) (s : Store) (h : StoreOk s) :
    StoreOk (applyMutation m s) := by
  obtain ⟨⟨hid, hdist⟩, hlive, hself, hdup, hty⟩ := h
  have huniq : ∀ a ∈ s.nodes, ∀ b ∈ s.nodes, a.id = b.id → a = b := by
    intro a ha b hb hab
    by_contra hne
    have hsymm : Symmetric (fun x y : FunnelNode => x.id ≠ y.id) :=
      fun x y hxy heq => hxy heq.symm
    exact hdist.forall hsymm ha hb hne hab
  cases m with
  | add t pos =>
      show StoreOk (addNode t pos s)
      unfold StoreOk IdsOk EdgeLive EdgeOk
      rw [addNode_nodes, addNode_edges, addNode_nextId]
      refine ⟨⟨?_, ?_⟩, ?_, hself, hdup, ?_⟩
      · intro n hn
        rcases List.mem_append.mp hn with hn | hn
        · obtain ⟨k, hk, hkeq⟩ := hid n hn
          exact ⟨k, by omega, hkeq⟩
        · rw [List.mem_singleton.mp hn]
          exact ⟨s.nextId, by omega, rfl⟩
      · rw [List.pairwise_append]
        refine ⟨hdist, by simp, ?_⟩
        intro a ha b hb
        rw [List.mem_singleton.mp hb]
        obtain ⟨k, hk, hkeq⟩ := hid a ha
        dsimp only
        rw [hkeq]
        intro hcontra
        exact absurd (genId_inj hcontra) (by omega)
      · intro e he
        obtain ⟨n, hn, hne⟩ := hlive e he
        exact ⟨n, List.mem_append_left _ hn, hne⟩
      · intro e he n hn hne
        rcases List.mem_append.mp hn with hn | hn
        · exact hty e he n hn hne
        · exfalso
          rw [List.mem_singleton.mp hn] at hne
          obtain ⟨n', hn', hne'⟩ := hlive e he
          obtain ⟨k, hk, hkeq⟩ := hid n' hn'
          dsimp only at hne
          rw [← hne, hkeq] at hne'
          exact absurd (genId_inj hne') (by omega)
  | connect c =>
      cases hv : isValidConnection (s.nodes.find? (fun n => n.id == c.source))
          (s.nodes.find? (fun n => n.id == c.target)) s.edges with
      | some r =>
          show StoreOk ((onConnect c s).1)
          rw [onConnect_reject c s r hv]
          exact ⟨⟨hid, hdist⟩, hlive, hself, hdup, hty⟩
      | none =>
          obtain ⟨ns, hns⟩ : ∃ n, s.nodes.find? (fun n => n.id == c.source) = some n := by
            cases hfind : s.nodes.find? (fun n => n.id == c.source) with
            | none =>
                cases htf : s.nodes.find? (fun n => n.id == c.target) <;>
                  rw [hfind, htf] at hv <;> simp [isValidConnection] at hv
            | some n => exact ⟨n, rfl⟩
          obtain ⟨nt, hnt⟩ : ∃ n, s.nodes.find? (fun n => n.id == c.target) = some n := by
            cases hfind : s.nodes.find? (fun n => n.id == c.target) with
            | none =>
                rw [hns, hfind] at hv
                simp [isValidConnection] at hv
            | some n => exact ⟨n, rfl⟩
          rw [hns, hnt] at hv
          obtain ⟨hne, hnodup, hnty⟩ := isValidConnection_none_inv ns nt s.edges hv
          have hsid : ns.id = c.source := by
            have := List.find?_some hns
            simpa using this
          have htid : nt.id = c.target := by
            have := List.find?_some hnt
            simpa using this
          have hsmem := List.mem_of_find?_eq_some hns
          have heq : applyMutation (.connect c) s =
              settle { s with edges := addEdgeFlow (mkFlowEdge c) s.edges } := by
            show (onConnect c s).1 = _
            simp only [onConnect]
            rw [hns, hnt, hv]
          rw [heq]
          apply StoreOk_settle
          have hguard : s.edges.any
              (fun x => x.source == (mkFlowEdge c).source && x.target == (mkFlowEdge c).target)
                = false := by
            rw [List.any_eq_false]
            intro e he
            simp only [mkFlowEdge, Bool.and_eq_true, beq_iff_eq, not_and]
            intro hes het
            exact hnodup e he ⟨by rw [hes, hsid], by rw [het, htid]⟩
          have hedges : addEdgeFlow (mkFlowEdge c) s.edges = s.edges ++ [mkFlowEdge c] := by
            unfold addEdgeFlow
            rw [hguard]
            simp
          unfold StoreOk IdsOk EdgeLive EdgeOk
          dsimp only
          rw [hedges]
          refine ⟨⟨hid, hdist⟩, ?_, ?_, ?_, ?_⟩
          · intro e he
            rcases List.mem_append.mp he with he | he
            · exact hlive e he
            · rw [List.mem_singleton.mp he]
              exact ⟨ns, hsmem, by rw [hsid]; rfl⟩
          · intro e he
            rcases List.mem_append.mp he with he | he
            · exact hself e he
            · rw [List.mem_singleton.mp he]
              show c.source ≠ c.target
              rw [← hsid, ← htid]
              exact hne
          · rw [List.pairwise_append]
            refine ⟨hdup, by simp, ?_⟩
            intro a ha b hb
            rw [List.mem_singleton.mp hb]
            intro hcontra
            exact hnodup a ha ⟨by rw [hcontra.1, hsid]; rfl, by rw [hcontra.2, htid]; rfl⟩
          · intro e he n hn hne2
            rcases List.mem_append.mp he with he | he
            · exact hty e he n hn hne2
            · rw [List.mem_singleton.mp he] at hne2
              have : n = ns := by
                apply huniq n hn ns hsmem
                rw [hne2, hsid]
                rfl
              rw [this]
              exact hnty
  | delNode i =>
      show StoreOk (deleteNode i s)
      unfold StoreOk IdsOk EdgeLive EdgeOk
      rw [deleteNode_nodes, deleteNode_edges, deleteNode_nextId]
      refine ⟨⟨?_, hdist.filter _⟩, ?_, ?_, hdup.filter _, ?_⟩
      · intro n hn
        exact hid n (List.mem_of_mem_filter hn)
      · intro e he
        obtain ⟨hemem, hepred⟩ := List.mem_filter.mp he
        obtain ⟨n, hn, hne⟩ := hlive e hemem
        refine ⟨n, List.mem_filter.mpr ⟨hn, ?_⟩, hne⟩
        simp only [Bool.and_eq_true, Bool.not_eq_eq_eq_not, Bool.not_true, beq_eq_false_iff_ne,
          ne_eq] at hepred ⊢
        rw [hne]
        exact hepred.1
      · intro e he
        exact hself e (List.mem_of_mem_filter he)
      · intro e he n hn hne
        exact hty e (List.mem_of_mem_filter he) n (List.mem_of_mem_filter hn) hne
  | delEdge i =>
      show StoreOk (deleteEdge i s)
      unfold StoreOk IdsOk EdgeLive EdgeOk
      rw [show (deleteEdge i s).nodes = s.nodes by simp [deleteEdge, settle_nodes],
          show (deleteEdge i s).edges = s.edges.filter (fun e => !(e.id == i))
            by simp [deleteEdge, settle_edges],
          show (deleteEdge i s).nextId = s.nextId by simp [deleteEdge, settle_nextId]]
      refine ⟨⟨hid, hdist⟩, ?_, ?_, hdup.filter _, ?_⟩
      · intro e he
        exact hlive e (List.mem_of_mem_filter he)
      · intro e he
        exact hself e (List.mem_of_mem_filter he)
      · intro e he n hn hne
        exact hty e (List.mem_of_mem_filter he) n hn hne
  | clearAll =>
      show StoreOk (clearCanvas s)
      rw [clearCanvas_eq]
      unfold StoreOk IdsOk EdgeLive EdgeOk
      simp

/-- C10: in every store state reachable from the empty store by addNode,
connect, deleteNode, deleteEdge and clear, the edge set contains no
self-loop, no two edges with the same (source, target) pair, and no edge
whose source node is of type thankYou. -/
theorem claim_C10_edge_invariants :
    ∀ (ms : List Mutation),
      (∀ e ∈ (applyMutations ms initialStore).edges, e.source ≠ e.target) ∧
      (applyMutations ms initialStore).edges.Pairwise
        (fun a b => ¬(a.source = b.source ∧ a.target = b.target)) ∧
      (∀ e ∈ (applyMutations ms initialStore).edges,
        ∀ n ∈ (applyMutations ms initialStore).nodes,
          n.id = e.source → n.data.nodeType ≠ .thankYou) := by
  intro ms
  have hok : StoreOk (applyMutations ms initialStore) := by
    have : ∀ (ms : List Mutation) (s : Store), StoreOk s → StoreOk (applyMutations ms s) := by
      intro ms
      induction ms with
      | nil => intro s h; exact h
      | cons m ms ih =>
          intro s h
          rw [applyMutations_cons]
          exact ih _ (applyMutation_StoreOk m s h)
    exact this ms initialStore StoreOk_initial
  exact ⟨hok.2.2.1, hok.2.2.2.1, hok.2.2.2.2⟩

theorem claim_C10_witness :
    (mkFlowEdge conn0).source ≠ (mkFlowEdge conn0).target :=
  (claim_C10_edge_invariants [.add .salesPage { x := 0, y := 0 },
      .add .orderPage { x := 100, y := 0 }, .connect conn0]).1
    (mkFlowEdge conn0) (by decide)

theorem flatMap_if_eq_filter_map {α β : Type} (l : List α) (p : α → Bool) (f : α → β) :
    (l.flatMap fun a => if p a then [f a] else []) = (l.filter p).map f := by
  induction l with
  | nil => rfl
  | cons a l ih => by_cases h : p a <;> simp [List.filter_cons, h, ih]

theorem evOrphan_filter_msg (nodes : List ENode) (edges : List FunnelEdge) :
    (evOrphan nodes edges).filter (fun i => i.message == multiStartMsg) = [] := by
  rw [List.filter_eq_nil_iff]
  intro i hi
  obtain ⟨n, _, rfl⟩ := List.mem_map.mp hi
  simp only [beq_iff_eq]
  exact msgNe _ _ _ (by decide) (by decide)

theorem evThankYou_filter_msg (nodes : List ENode) (edges : List FunnelEdge) :
    (evThankYou nodes edges).filter (fun i => i.message == multiStartMsg) = [] := by
  rw [List.filter_eq_nil_iff]
  intro i hi
  obtain ⟨n, _, hin⟩ := List.mem_flatMap.mp hi
  split_ifs at hin
  · rw [List.mem_singleton.mp hin]
    simp only [beq_iff_eq]
    exact msgNe _ _ _ (by decide) (by decide)
  · exact absurd hin (List.not_mem_nil _)

theorem evSales_filter_msg (nodes : List ENode) (edges : List FunnelEdge) :
    (evSales nodes edges).filter (fun i => i.message == multiStartMsg) = [] := by
  rw [List.filter_eq_nil_iff]
  intro i hi
  obtain ⟨n, _, hin⟩ := List.mem_flatMap.mp hi
  split_ifs at hin <;>
    first
      | exact absurd hin (List.not_mem_nil _)
      | (rw [List.mem_singleton.mp hin]
         simp only [beq_iff_eq]
         exact msgNe _ _ _ (by decide) (by decide))

theorem validateFunnel_no_multi (nodes : List FunnelNode) (edges : List FunnelEdge) :
    (validateFunnel nodes edges).filter (fun i => i.message == multiStartMsg) = [] := by
  rw [List.filter_eq_nil_iff]
  intro i hi
  obtain ⟨n, _, hin⟩ := List.mem_flatMap.mp hi
  simp only [nodeIssues, List.mem_append] at hin
  rcases hin with (h | h) | h <;> split_ifs at h <;>
    first
      | exact absurd h (List.not_mem_nil _)
      | (rw [List.mem_singleton.mp h]
         simp only [beq_iff_eq]
         exact msgNe _ _ _ (by decide) (by decide))

/-- C1 corrected: the primary validateFunnel has no multiple-starting-points
rule at all and never emits that message; the enhanced variant emits the
warning once per sales page with zero incoming edges — each tagged with that
sales page id, never as a single untagged graph-level warning — whenever
more than one sales page exists, and emits none otherwise. -/
theorem claim_C1_multi_start :
    (∀ (nodes : List ENode) (edges : List FunnelEdge),
      (validateFunnelEnhanced nodes edges).filter (fun i => i.message == multiStartMsg) =
        if 1 < (nodes.filter (fun n => n.data.type == .salesPage)).length then
          ((nodes.filter (fun n => n.data.type == .salesPage)).filter
            (fun sp => (edges.filter (fun e => e.target == sp.id)).length == 0)).map
            (fun sp => { nodeId := some sp.id, type := .warning, message := multiStartMsg })
        else [])
    ∧ (∀ (nodes : List FunnelNode) (edges : List FunnelEdge),
        (validateFunnel nodes edges).filter (fun i => i.message == multiStartMsg) = []) := by
  constructor
  · intro nodes edges
    cases nodes with
    | nil => simp [validateFunnelEnhanced]
    | cons hd tl =>
        unfold validateFunnelEnhanced
        rw [if_neg (by simp)]
        rw [List.filter_append, List.filter_append, List.filter_append,
            evOrphan_filter_msg, evThankYou_filter_msg, evSales_filter_msg]
        simp only [List.nil_append]
        unfold evMultiStart
        by_cases hsp : 1 < ((hd :: tl).filter (fun n => n.data.type == .salesPage)).length
        · rw [if_pos (decide_eq_true hsp), if_pos hsp, flatMap_if_eq_filter_map]
          apply List.filter_eq_self.mpr
          intro i hi
          obtain ⟨sp, _, rfl⟩ := List.mem_map.mp hi
          simp
        · rw [if_neg (by simpa using hsp), if_neg hsp]
          rfl
  · exact validateFunnel_no_multi

theorem claim_C1_cex :
    ((validateFunnelEnhanced c1nodesE []).filter
        (fun i => i.message == multiStartMsg && i.nodeId == none)).length = 0
    ∧ ((validateFunnelEnhanced c1nodesE []).filter
        (fun i => i.message == multiStartMsg)).length = 2
    ∧ (validateFunnel c1nodesM []).filter (fun i => i.message == multiStartMsg) = [] := by
  exact ⟨by decide, by decide, by decide⟩

end Funnel
